import Mathlib

/-!
Verification of the table-persistence and diff-conversion layer of the
repository.  The Go source is shallowly embedded: pure functions become Lean
functions, fallible I/O steps are driven by an explicit environment record
that prescribes the outcome of each primitive operation, and the filesystem /
cache side effects are recorded as an explicit event trace.  Machine integers
(uint64 / int64) are modelled as `Nat` / `Int` with explicit reduction
modulo `2 ^ 64` at the points where the Go code converts between them.
-/

/-! ### Part 1: keyless diff conversion (`convertDiff` in the diff package) -/

/-- Go constant `types.DiffChangeAdded` (the `DiffChangeType` enum is an
integer type, so unexpected values are representable and hit the `default`
switch arm). -/
def diffChangeAdded : Nat := 0

/-- Go constant `types.DiffChangeRemoved`. -/
def diffChangeRemoved : Nat := 1

/-- Go constant `types.DiffChangeModified`. -/
def diffChangeModified : Nat := 2

instance exceptDecEq {α β : Type} [DecidableEq α] [DecidableEq β] :
    DecidableEq (Except α β) := fun a b =>
  match a, b with
  | .error e, .error f =>
    if h : e = f then .isTrue (by rw [h]) else .isFalse (by simp [h])
  | .error _, .ok _ => .isFalse (by simp)
  | .ok _, .error _ => .isFalse (by simp)
  | .ok v, .ok w =>
    if h : v = w then .isTrue (by rw [h]) else .isFalse (by simp [h])

/-- Embedding of `diff.Difference` restricted to the fields `convertDiff`
reads or writes.  `oldValue`/`newValue` model the keyless cardinality tuple
slot: `none` is a nil Go value; `some (.error e)` is a value whose
`Tuple.Get(row.KeylessCardinalityValIdx)` call fails with error `e`;
`some (.ok v)` is a tuple holding cardinality `v` (a `types.Uint`, i.e. a
uint64).  `keyValue` stands for the row key used in the error message. -/
structure Difference where
  changeType : Nat
  oldValue : Option (Except Nat Nat)
  newValue : Option (Except Nat Nat)
  keyValue : Nat
  deriving DecidableEq

/-- Error code for the `"diff with delta = 0 for key: %s"` error. -/
def errDeltaZero : Nat := 1001

/-- Error code for the `"unexpected DiffChange type %d"` error. -/
def errUnexpectedType : Nat := 1002

/-- Cardinality extraction at the top of `convertDiff`: a nil value yields 0,
otherwise the tuple slot is fetched (possibly failing) and converted with
`uint64(v.(types.Uint))`, i.e. reduced into the uint64 range. -/
def cardOf : Option (Except Nat Nat) → Except Nat Nat
  | none => .ok 0
  | some (.error e) => .error e
  | some (.ok v) => .ok (v % 2 ^ 64)

/-- Reinterpretation `int64(x)` of a uint64 value `x`. -/
def toS64 (n : Nat) : Int :=
  if n % 2 ^ 64 < 2 ^ 63 then ((n % 2 ^ 64 : Nat) : Int)
  else ((n % 2 ^ 64 : Nat) : Int) - 2 ^ 64

/-- Wrapping int64 arithmetic: reduce an unbounded integer into
`[-2 ^ 63, 2 ^ 63)`. -/
def wrapS64 (i : Int) : Int := (i + 2 ^ 63) % 2 ^ 64 - 2 ^ 63

/-- Reinterpretation `uint64(d)` of an int64 value `d`. -/
def toU64 (i : Int) : Nat := (i % 2 ^ 64).toNat

/-- Embedding of `convertDiff` (diff package).  Returns the (possibly
rewritten) difference, the reported cardinality, and `some e` when the Go
function returns a non-nil error.  The Go code computes
`delta := int64(newCard) - int64(oldCard)` in wrapping int64 arithmetic and
returns `uint64(delta)` in both the added and the removed branch. -/
def convertDiff (df : Difference) : Difference × Nat × Option Nat :=
  match cardOf df.oldValue with
  | .error e => (df, 0, some e)
  | .ok oldCard =>
    match cardOf df.newValue with
    | .error e => (df, 0, some e)
    | .ok newCard =>
      if df.changeType = diffChangeRemoved then (df, oldCard, none)
      else if df.changeType = diffChangeAdded then (df, newCard, none)
      else if df.changeType = diffChangeModified then
        let delta := wrapS64 (toS64 newCard - toS64 oldCard)
        if 0 < delta then
          ({ df with changeType := diffChangeAdded, oldValue := none }, toU64 delta, none)
        else if delta < 0 then
          ({ df with changeType := diffChangeRemoved, newValue := none }, toU64 delta, none)
        else (df, 0, some errDeltaZero)
      else (df, 0, some errUnexpectedType)

/-! ### Part 2: KVP iterator order check (`IsInOrder` in go/types/kvp.go) -/

/-- Loop body of `IsInOrder`: `prev` is the last pair consumed, `count` the
number of pairs consumed so far, and the list the pairs the iterator has yet
to yield (a `nil` from `Next` is the end of the list). -/
def isInOrderLoop (less : α → α → Bool) : α → Nat → List α → Bool × Nat
  | _, count, [] => (true, count)
  | prev, count, curr :: rest =>
    if less curr prev then (false, count)
    else isInOrderLoop less curr (count + 1) rest

/-- Embedding of `IsInOrder` (go/types/kvp.go): the iterator is modelled as
the list of keys it yields, compared with the `Less` method. -/
def IsInOrder (less : α → α → Bool) : List α → Bool × Nat
  | [] => (true, 0)
  | p :: rest => isInOrderLoop less p 1 rest

/-! ### Part 3: filesystem table persister (`fsTablePersister`, nbs package) -/

/-- Observable side effects of a persister call, in program order.
`tempCreated t` is a successful `ioutil.TempFile`; `parseCalled` is an
invocation of `parseTableIndex`; `lock`/`put`/`unlock` are the index-cache
operations; `shrink` is a call to `fc.ShrinkCache`; `renamed n` is a
successful `os.Rename` onto the final content-derived name `n` — the one
operation that makes a file visible under its final table name. -/
inductive Ev
  | tempCreated (t : Nat)
  | parseCalled
  | lock (name : Nat)
  | put (name : Nat)
  | unlock (name : Nat)
  | shrink
  | renamed (name : Nat)
  deriving DecidableEq

/-- Result value of a persister call: the stable empty-chunk-source sentinel
(`emptyChunkSource{}`), or an open handle on the named table
(`ftp.Open(ctx, name, chunkCount, stats)` on success). -/
inductive ChunkSrc
  | emptySrc
  | opened (name : Nat) (chunkCount : Nat)
  deriving DecidableEq

/-- Outcome oracle for the fallible primitive steps of `persistTable`:
each field prescribes what the corresponding I/O call returns.  Addresses,
temp names, table indexes and error causes are all coded as `Nat`. -/
structure PersistEnv where
  tempFile : Except Nat Nat
  copyErr : Option Nat
  parseRes : Except Nat Nat
  unlockErr : Option Nat
  closeErr : Option Nat
  shrinkErr : Option Nat
  renameErr : Option Nat
  openErr : Option Nat
  deriving DecidableEq

/-- Embedding of the anonymous closure inside `persistTable` that creates the
temp file, copies `data` into it, parses the index and (when an index cache
is configured) locks the name, puts the index and unlocks via `defer`.
Returns the temp name or the first error; deferred `unlock` runs before the
deferred `Close`, and each deferred error only replaces a nil `ferr`. -/
def persistTableInner (hasCache : Bool) (name : Nat) (env : PersistEnv) :
    Except Nat Nat × List Ev :=
  match env.tempFile with
  | .error e => (.error e, [])
  | .ok t =>
    match env.copyErr with
    | some e => (.error e, [Ev.tempCreated t])
    | none =>
      match env.parseRes with
      | .error e => (.error e, [Ev.tempCreated t, Ev.parseCalled])
      | .ok _ =>
        if hasCache then
          match env.unlockErr with
          | some e =>
            (.error e,
             [Ev.tempCreated t, Ev.parseCalled, Ev.lock name, Ev.put name, Ev.unlock name])
          | none =>
            match env.closeErr with
            | some e =>
              (.error e,
               [Ev.tempCreated t, Ev.parseCalled, Ev.lock name, Ev.put name, Ev.unlock name])
            | none =>
              (.ok t,
               [Ev.tempCreated t, Ev.parseCalled, Ev.lock name, Ev.put name, Ev.unlock name])
        else
          match env.closeErr with
          | some e => (.error e, [Ev.tempCreated t, Ev.parseCalled])
          | none => (.ok t, [Ev.tempCreated t, Ev.parseCalled])

/-- Embedding of `fsTablePersister.persistTable`: zero chunks short-circuit
to the empty sentinel with no filesystem activity; otherwise the inner
closure runs, then `ShrinkCache`, then the single `os.Rename` onto the final
name, then `Open`. -/
def persistTable (hasCache : Bool) (name : Nat) (data : List Nat) (chunkCount : Nat)
    (env : PersistEnv) : Except Nat ChunkSrc × List Ev :=
  if chunkCount = 0 then (.ok .emptySrc, [])
  else
    match persistTableInner hasCache name env with
    | (.error e, evs) => (.error e, evs)
    | (.ok _, evs) =>
      match env.shrinkErr with
      | some e => (.error e, evs ++ [Ev.shrink])
      | none =>
        match env.renameErr with
        | some e => (.error e, evs ++ [Ev.shrink])
        | none =>
          match env.openErr with
          | some e => (.error e, evs ++ [Ev.shrink, Ev.renamed name])
          | none => (.ok (.opened name chunkCount), evs ++ [Ev.shrink, Ev.renamed name])

/-- Embedding of `fsTablePersister.Persist`: `writeRes` is the outcome of
`mt.write(haver, stats)` — an error, or the triple (name, data, chunkCount)
handed to `persistTable`. -/
def Persist (hasCache : Bool) (writeRes : Except Nat (Nat × List Nat × Nat))
    (env : PersistEnv) : Except Nat ChunkSrc × List Ev :=
  match writeRes with
  | .error e => (.error e, [])
  | .ok (name, data, chunkCount) => persistTable hasCache name data chunkCount env

/-- One entry of `plan.sources.sws` together with the I/O outcomes of its
copy step: `dataLen` is the plan-declared length, `readerErr` the outcome of
`sws.source.reader(ctx)`, and `copyN` the outcome of `io.CopyN` (an error or
the number of bytes actually copied). -/
structure SrcCopy where
  dataLen : Nat
  readerErr : Option Nat
  copyN : Except Nat Nat
  deriving DecidableEq

/-- Embedding of the conjoin plan as consumed by `ConjoinAll`: total chunk
count, the copy instructions, and the new table name
`nameFromSuffixes(plan.suffixes())`. -/
structure ConjoinPlan where
  chunkCount : Nat
  sws : List SrcCopy
  name : Nat
  deriving DecidableEq

/-- Error code of `errors.New("failed to copy all data")`. -/
def shortCopyErr : Nat := 2001

/-- Embedding of the copy loop of `ConjoinAll`: for each source, obtain a
reader, `io.CopyN` exactly `dataLen` bytes, fail on the copy error first and
otherwise on a short count.  Returns the first error, if any. -/
def copySources : List SrcCopy → Option Nat
  | [] => none
  | s :: rest =>
    match s.readerErr with
    | some e => some e
    | none =>
      match s.copyN with
      | .error e => some e
      | .ok n => if n = s.dataLen then copySources rest else some shortCopyErr

/-- Outcome oracle for the fallible primitive steps of `ConjoinAll` (the
per-source copy outcomes live inside the plan's `SrcCopy` entries). -/
structure ConjoinEnv where
  planRes : Except Nat ConjoinPlan
  tempFile : Except Nat Nat
  writeIdxErr : Option Nat
  parseRes : Except Nat Nat
  closeErr : Option Nat
  renameErr : Option Nat
  openErr : Option Nat
  deriving DecidableEq

/-- Embedding of the anonymous closure inside `ConjoinAll`: temp-file
creation, the per-source copy loop, appending the merged index, parsing it,
and — when an index cache is configured — a bare `put` of the merged index
(no `lockEntry`/`unlockEntry` around it); the deferred `Close` error only
replaces a nil `ferr`. -/
def conjoinInner (hasCache : Bool) (plan : ConjoinPlan) (env : ConjoinEnv) :
    Except Nat Nat × List Ev :=
  match env.tempFile with
  | .error e => (.error e, [])
  | .ok t =>
    match copySources plan.sws with
    | some e => (.error e, [Ev.tempCreated t])
    | none =>
      match env.writeIdxErr with
      | some e => (.error e, [Ev.tempCreated t])
      | none =>
        match env.parseRes with
        | .error e => (.error e, [Ev.tempCreated t, Ev.parseCalled])
        | .ok _ =>
          match env.closeErr with
          | some e =>
            (.error e,
             if hasCache then [Ev.tempCreated t, Ev.parseCalled, Ev.put plan.name]
             else [Ev.tempCreated t, Ev.parseCalled])
          | none =>
            (.ok t,
             if hasCache then [Ev.tempCreated t, Ev.parseCalled, Ev.put plan.name]
             else [Ev.tempCreated t, Ev.parseCalled])

/-- Embedding of `fsTablePersister.ConjoinAll`: compute the plan, return the
empty sentinel on a zero-chunk plan, otherwise run the inner closure, then
the single `os.Rename` onto the new content-derived name, then `Open`.
Note: no `ShrinkCache` call on this path. -/
def ConjoinAll (hasCache : Bool) (env : ConjoinEnv) : Except Nat ChunkSrc × List Ev :=
  match env.planRes with
  | .error e => (.error e, [])
  | .ok plan =>
    if plan.chunkCount = 0 then (.ok .emptySrc, [])
    else
      match conjoinInner hasCache plan env with
      | (.error e, evs) => (.error e, evs)
      | (.ok _, evs) =>
        match env.renameErr with
        | some e => (.error e, evs)
        | none =>
          match env.openErr with
          | some e => (.error e, evs ++ [Ev.renamed plan.name])
          | none => (.ok (.opened plan.name plan.chunkCount), evs ++ [Ev.renamed plan.name])

/-! ### Part 4: MemTable serialization (spec-modelled) -/

/-- Modelled from the spec: the body of `memTable.write` is not part of the
provided source (only its caller `fsTablePersister.Persist` is).  A chunk is
coded by its payload `c : Nat` and its content address is `hashAddr c`
(injective and monotone, standing for the content hash). -/
def hashAddr (c : Nat) : Nat := 2 * c + 1

/-- Modelled from the spec: the set of chunks `memTable.write` actually
serializes — those not already reported present by the `haver`
(spec §4.4). -/
def chunkKeptSet (haver : Nat → Bool) (chunks : List Nat) : Finset Nat :=
  (chunks.filter (fun c => !haver (hashAddr c))).toFinset

/-- Modelled from the spec: `memTable.write(haver, stats)` — missing from the
provided source.  Per spec §4.4 it serializes every chunk the haver does not
already have into the table layout, computes the content-derived name from
the set of written chunk addresses, and returns (name, bytes, chunkCount);
per spec §9 determinism comes from a canonical ordering (chunk addresses are
sorted before naming and serialization). -/
def memTableWrite (haver : Nat → Bool) (chunks : List Nat) : Nat × List Nat × Nat :=
  let kept := (chunkKeptSet haver chunks).sort (· ≤ ·)
  (kept.foldl (fun h c => h * 31 + hashAddr c) 7,
   (kept.map (fun c => [hashAddr c, c])).flatten,
   kept.length)

/-! ### Helper lemmas on the persister traces -/

/-- Shape of the inner-closure trace of `persistTable`: empty, a bare temp
creation, temp creation plus one index parse, or the full successful cache
sequence lock–put–unlock on the target name. -/
theorem persistTableInner_shape (hc : Bool) (name : Nat) (env : PersistEnv) :
    (persistTableInner hc name env).2 = []
    ∨ (∃ t, (persistTableInner hc name env).2 = [Ev.tempCreated t])
    ∨ (∃ t, (persistTableInner hc name env).2 = [Ev.tempCreated t, Ev.parseCalled])
    ∨ (∃ t, (persistTableInner hc name env).2
        = [Ev.tempCreated t, Ev.parseCalled, Ev.lock name, Ev.put name, Ev.unlock name]) := by
  obtain ⟨tf, ce, pr, ue, cl, se, re, oe⟩ := env
  cases tf <;> cases ce <;> cases pr <;> cases hc <;> cases ue <;> cases cl <;>
    simp [persistTableInner]

/-- Shape of the inner-closure trace of `ConjoinAll`: empty, a bare temp
creation, temp creation plus one index parse, or additionally a bare `put`
of the merged index on the new name — never a lock, unlock or shrink. -/
theorem conjoinInner_shape (hc : Bool) (plan : ConjoinPlan) (env : ConjoinEnv) :
    (conjoinInner hc plan env).2 = []
    ∨ (∃ t, (conjoinInner hc plan env).2 = [Ev.tempCreated t])
    ∨ (∃ t, (conjoinInner hc plan env).2 = [Ev.tempCreated t, Ev.parseCalled])
    ∨ (∃ t, (conjoinInner hc plan env).2
        = [Ev.tempCreated t, Ev.parseCalled, Ev.put plan.name]) := by
  obtain ⟨pl, tf, wi, pr, cl, re, oe⟩ := env
  cases tf <;> rcases hcs : copySources plan.sws with _ | e <;> cases wi <;> cases pr <;>
    cases hc <;> cases cl <;> simp [conjoinInner, hcs]

/-- The inner closure of `persistTable` never records a rename or a shrink. -/
theorem persistTableInner_no_renamed_no_shrink (hc : Bool) (name : Nat) (env : PersistEnv) :
    (∀ n, Ev.renamed n ∉ (persistTableInner hc name env).2)
    ∧ Ev.shrink ∉ (persistTableInner hc name env).2 := by
  rcases persistTableInner_shape hc name env with h | ⟨t, h⟩ | ⟨t, h⟩ | ⟨t, h⟩ <;>
    simp [h]

/-- The inner closure of `ConjoinAll` never records a rename, a shrink, a
lock or an unlock. -/
theorem conjoinInner_no_renamed_no_shrink (hc : Bool) (plan : ConjoinPlan) (env : ConjoinEnv) :
    (∀ n, Ev.renamed n ∉ (conjoinInner hc plan env).2)
    ∧ Ev.shrink ∉ (conjoinInner hc plan env).2
    ∧ (∀ n, Ev.lock n ∉ (conjoinInner hc plan env).2)
    ∧ (∀ n, Ev.unlock n ∉ (conjoinInner hc plan env).2) := by
  rcases conjoinInner_shape hc plan env with h | ⟨t, h⟩ | ⟨t, h⟩ | ⟨t, h⟩ <;>
    simp [h]

/-- Trace of `persistTable` (nonzero chunk count): the inner trace, possibly
followed by the shrink, possibly followed by the rename onto the final
name. -/
theorem persistTable_trace (hc : Bool) (name : Nat) (data : List Nat) (cc : Nat)
    (env : PersistEnv) (hcc : cc ≠ 0) :
    (persistTable hc name data cc env).2 = (persistTableInner hc name env).2
    ∨ (persistTable hc name data cc env).2
        = (persistTableInner hc name env).2 ++ [Ev.shrink]
    ∨ (persistTable hc name data cc env).2
        = (persistTableInner hc name env).2 ++ [Ev.shrink, Ev.renamed name] := by
  unfold persistTable
  rcases hin : persistTableInner hc name env with ⟨r, evs⟩
  rcases r with e | t <;> rcases h3 : env.shrinkErr with _ | e3 <;>
    rcases h4 : env.renameErr with _ | e4 <;> rcases h5 : env.openErr with _ | e5 <;>
    simp [hcc, hin, h3, h4, h5]

/-- Trace of `ConjoinAll` on a nonzero-chunk plan: the inner trace, possibly
followed by the rename onto the new name — never a shrink, lock or
unlock. -/
theorem conjoinAll_trace (hc : Bool) (plan : ConjoinPlan) (cenv : ConjoinEnv)
    (hpl : cenv.planRes = .ok plan) (hcc : plan.chunkCount ≠ 0) :
    (ConjoinAll hc cenv).2 = (conjoinInner hc plan cenv).2
    ∨ (ConjoinAll hc cenv).2 = (conjoinInner hc plan cenv).2 ++ [Ev.renamed plan.name] := by
  unfold ConjoinAll
  rcases hin : conjoinInner hc plan cenv with ⟨r, evs⟩
  rcases r with e | t <;> rcases h4 : cenv.renameErr with _ | e4 <;>
    rcases h5 : cenv.openErr with _ | e5 <;> simp [hpl, hcc, hin, h4, h5]

/-! ### Claim theorems -/

/-- C2: `Persist` returns the stable empty-chunk-source sentinel with no
filesystem activity whenever `mt.write` reports zero chunks, and
`ConjoinAll` returns the same sentinel with no filesystem activity whenever
the computed plan covers zero chunks. -/
theorem persist_conjoin_zero_chunks_empty_sentinel (hc : Bool) (name : Nat)
    (data : List Nat) (env : PersistEnv) (cenv : ConjoinEnv) (plan : ConjoinPlan) :
    Persist hc (.ok (name, data, 0)) env = (.ok .emptySrc, [])
    ∧ (cenv.planRes = .ok plan → plan.chunkCount = 0 →
        ConjoinAll hc cenv = (.ok .emptySrc, [])) := by
  constructor
  · simp [Persist, persistTable]
  · intro h1 h2
    simp [ConjoinAll, h1, h2]

/-- C2 witness: concrete zero-chunk write result and zero-chunk plan. -/
theorem persist_conjoin_zero_chunks_empty_sentinel_w :
    Persist true (.ok (5, [1, 2], 0)) ⟨.ok 42, none, .ok 0, none, none, none, none, none⟩
        = (.ok .emptySrc, [])
    ∧ ConjoinAll true ⟨.ok ⟨0, [], 9⟩, .ok 42, none, .ok 0, none, none, none⟩
        = (.ok .emptySrc, []) := by
  have h := persist_conjoin_zero_chunks_empty_sentinel true 5 [1, 2]
      ⟨.ok 42, none, .ok 0, none, none, none, none, none⟩
      ⟨.ok ⟨0, [], 9⟩, .ok 42, none, .ok 0, none, none, none⟩ ⟨0, [], 9⟩
  exact ⟨h.1, h.2 rfl rfl⟩

/-- C1 counterexample: a `Persist` run in which every step up to and
including the rename succeeds and only the final `Open` fails returns an
error even though the fully written table file has already been installed
under its final content-derived name (the `renamed` event is in the
trace). -/
theorem persist_error_after_rename_cex :
    (Persist true (.ok (5, [1], 2)) ⟨.ok 42, none, .ok 0, none, none, none, none, some 7⟩).1
        = .error 7
    ∧ Ev.renamed 5 ∈ (Persist true (.ok (5, [1], 2))
        ⟨.ok 42, none, .ok 0, none, none, none, none, some 7⟩).2 := by
  decide

/-- C1 (amended): for every `Persist` or `ConjoinAll` call that returns an
error, a file under the final content-derived table name exists only when
the failing step is the final re-`Open` of the already installed table: a
failure at temp-file creation, data copy, index write or parse, cache
update, close, shrink or rename leaves no final-named file behind. -/
theorem persist_conjoin_error_no_final_file (hc : Bool)
    (wr : Except Nat (Nat × List Nat × Nat)) (env : PersistEnv) (cenv : ConjoinEnv)
    (e : Nat) :
    ((Persist hc wr env).1 = .error e →
      ∀ n, Ev.renamed n ∈ (Persist hc wr env).2 → env.openErr = some e)
    ∧ ((ConjoinAll hc cenv).1 = .error e →
      ∀ n, Ev.renamed n ∈ (ConjoinAll hc cenv).2 → cenv.openErr = some e) := by
  constructor
  · rcases wr with e0 | ⟨name, data, cc⟩
    · simp [Persist]
    · by_cases hcc : cc = 0
      · simp [Persist, persistTable, hcc]
      · intro herr n hmem
        have hnr := (persistTableInner_no_renamed_no_shrink hc name env).1 n
        rcases hin : persistTableInner hc name env with ⟨r, evs⟩
        rw [hin] at hnr
        rcases r with e2 | t
        · simp [Persist, persistTable, hcc, hin] at hmem
          exact absurd hmem hnr
        · rcases h3 : env.shrinkErr with _ | e3
          · rcases h4 : env.renameErr with _ | e4
            · rcases h5 : env.openErr with _ | e5
              · simp [Persist, persistTable, hcc, hin, h3, h4, h5] at herr
              · simp [Persist, persistTable, hcc, hin, h3, h4, h5] at herr
                exact congrArg some herr
            · simp [Persist, persistTable, hcc, hin, h3, h4] at hmem
              exact absurd hmem hnr
          · simp [Persist, persistTable, hcc, hin, h3] at hmem
            exact absurd hmem hnr
  · rcases hpl : cenv.planRes with e0 | plan
    · simp [ConjoinAll, hpl]
    · by_cases hcc : plan.chunkCount = 0
      · simp [ConjoinAll, hpl, hcc]
      · intro herr n hmem
        have hnr := (conjoinInner_no_renamed_no_shrink hc plan cenv).1 n
        rcases hin : conjoinInner hc plan cenv with ⟨r, evs⟩
        rw [hin] at hnr
        rcases r with e2 | t
        · simp [ConjoinAll, hpl, hcc, hin] at hmem
          exact absurd hmem hnr
        · rcases h4 : cenv.renameErr with _ | e4
          · rcases h5 : cenv.openErr with _ | e5
            · simp [ConjoinAll, hpl, hcc, hin, h4, h5] at herr
            · simp [ConjoinAll, hpl, hcc, hin, h4, h5] at herr
              exact congrArg some herr
          · simp [ConjoinAll, hpl, hcc, hin, h4] at hmem
            exact absurd hmem hnr

/-- C1 witness: the amended theorem applied to a run whose only failure is
the final open. -/
theorem persist_conjoin_error_no_final_file_w :
    (⟨.ok 42, none, .ok 0, none, none, none, none, some 7⟩ : PersistEnv).openErr
        = some 7 :=
  (persist_conjoin_error_no_final_file true (.ok (6, [1], 2))
      ⟨.ok 42, none, .ok 0, none, none, none, none, some 7⟩
      ⟨.ok ⟨0, [], 9⟩, .ok 1, none, .ok 0, none, none, none⟩ 7).1 (by decide) 6 (by decide)

/-- C3 counterexample: a successful `ConjoinAll` run with an index cache
configured inserts the merged index (`put`) without any `lockEntry` —
the trace holds a `put` on the new name and no `lock` at all. -/
theorem conjoin_put_without_lock_cex :
    Ev.put 9 ∈ (ConjoinAll true
        ⟨.ok ⟨3, [⟨10, none, .ok 10⟩], 9⟩, .ok 42, none, .ok 0, none, none, none⟩).2
    ∧ Ev.lock 9 ∉ (ConjoinAll true
        ⟨.ok ⟨3, [⟨10, none, .ok 10⟩], 9⟩, .ok 42, none, .ok 0, none, none, none⟩).2 := by
  decide

/-- C3 (amended): every index-cache insert performed by `Persist` is
immediately surrounded by `lockEntry`/`unlockEntry` on the target table
name, but the insert `ConjoinAll` performs for the merged index is bare:
`ConjoinAll` never locks or unlocks any cache entry. -/
theorem persist_put_locked_conjoin_put_bare (hc : Bool)
    (wr : Except Nat (Nat × List Nat × Nat)) (env : PersistEnv) (cenv : ConjoinEnv)
    (n : Nat) :
    (Ev.put n ∈ (Persist hc wr env).2 →
      ∃ pre post, (Persist hc wr env).2
        = pre ++ Ev.lock n :: Ev.put n :: Ev.unlock n :: post)
    ∧ ((∀ m, Ev.lock m ∉ (ConjoinAll hc cenv).2)
        ∧ (∀ m, Ev.unlock m ∉ (ConjoinAll hc cenv).2)) := by
  constructor
  · rcases wr with e0 | ⟨name, data, cc⟩
    · simp [Persist]
    · by_cases hcc : cc = 0
      · simp [Persist, persistTable, hcc]
      · intro hmem
        have htr := persistTable_trace hc name data cc env hcc
        have hsh := persistTableInner_shape hc name env
        simp only [Persist] at hmem ⊢
        rcases hsh with h0 | ⟨t, h0⟩ | ⟨t, h0⟩ | ⟨t, h0⟩ <;>
          rcases htr with h | h | h <;> rw [h, h0] at hmem <;> rw [h, h0] <;>
          simp at hmem
        · subst hmem
          exact ⟨[Ev.tempCreated t, Ev.parseCalled], [], by simp⟩
        · subst hmem
          exact ⟨[Ev.tempCreated t, Ev.parseCalled], [Ev.shrink], by simp⟩
        · subst hmem
          exact ⟨[Ev.tempCreated t, Ev.parseCalled], [Ev.shrink, Ev.renamed n], by simp⟩
  · rcases hpl : cenv.planRes with e0 | plan
    · simp [ConjoinAll, hpl]
    · by_cases hcc : plan.chunkCount = 0
      · simp [ConjoinAll, hpl, hcc]
      · have htr := conjoinAll_trace hc plan cenv hpl hcc
        have hsh := conjoinInner_shape hc plan cenv
        constructor <;> intro m <;>
          rcases htr with h | h <;>
          rcases hsh with h0 | ⟨t, h0⟩ | ⟨t, h0⟩ | ⟨t, h0⟩ <;>
          rw [h, h0] <;> simp

/-- C3 witness: the amended theorem applied to a successful cached `Persist`
run, exhibiting the lock–put–unlock bracket in its trace. -/
theorem persist_put_locked_conjoin_put_bare_w :
    ∃ pre post,
      (Persist true (.ok (5, [1], 2))
          ⟨.ok 42, none, .ok 0, none, none, none, none, none⟩).2
        = pre ++ Ev.lock 5 :: Ev.put 5 :: Ev.unlock 5 :: post :=
  (persist_put_locked_conjoin_put_bare true (.ok (5, [1], 2))
      ⟨.ok 42, none, .ok 0, none, none, none, none, none⟩
      ⟨.ok ⟨0, [], 9⟩, .ok 1, none, .ok 0, none, none, none⟩ 5).1 (by decide)

/-- C4 counterexample: a successful `ConjoinAll` run installs and opens the
new table (the `renamed` event is in the trace) without ever calling
`ShrinkCache`. -/
theorem conjoin_no_shrink_cex :
    Ev.renamed 11 ∈ (ConjoinAll true
        ⟨.ok ⟨4, [⟨8, none, .ok 8⟩], 11⟩, .ok 43, none, .ok 0, none, none, none⟩).2
    ∧ Ev.shrink ∉ (ConjoinAll true
        ⟨.ok ⟨4, [⟨8, none, .ok 8⟩], 11⟩, .ok 43, none, .ok 0, none, none, none⟩).2 := by
  decide

/-- C4 (amended): in `Persist` the file-handle cache is shrunk immediately
before the rename that installs the new table file, but `ConjoinAll`
installs and opens its new table without ever shrinking the file-handle
cache. -/
theorem persist_shrink_before_install_conjoin_none (hc : Bool)
    (wr : Except Nat (Nat × List Nat × Nat)) (env : PersistEnv) (cenv : ConjoinEnv)
    (n : Nat) :
    (Ev.renamed n ∈ (Persist hc wr env).2 →
      ∃ pre post, (Persist hc wr env).2 = pre ++ Ev.shrink :: Ev.renamed n :: post)
    ∧ Ev.shrink ∉ (ConjoinAll hc cenv).2 := by
  constructor
  · rcases wr with e0 | ⟨name, data, cc⟩
    · simp [Persist]
    · by_cases hcc : cc = 0
      · simp [Persist, persistTable, hcc]
      · intro hmem
        have htr := persistTable_trace hc name data cc env hcc
        have hnr := (persistTableInner_no_renamed_no_shrink hc name env).1
        simp only [Persist] at hmem ⊢
        rcases htr with h | h | h <;> rw [h] at hmem ⊢
        · exact absurd hmem (hnr n)
        · simp at hmem
          exact absurd hmem (hnr n)
        · simp at hmem
          rcases hmem with hmem | hmem
          · exact absurd hmem (hnr n)
          · subst hmem
            exact ⟨(persistTableInner hc n env).2, [], by simp⟩
  · rcases hpl : cenv.planRes with e0 | plan
    · simp [ConjoinAll, hpl]
    · by_cases hcc : plan.chunkCount = 0
      · simp [ConjoinAll, hpl, hcc]
      · have htr := conjoinAll_trace hc plan cenv hpl hcc
        have hsh := conjoinInner_shape hc plan cenv
        rcases htr with h | h <;>
          rcases hsh with h0 | ⟨t, h0⟩ | ⟨t, h0⟩ | ⟨t, h0⟩ <;>
          rw [h, h0] <;> simp

/-- C4 witness: the amended theorem applied to a successful `Persist` run,
exhibiting the shrink–rename suffix in its trace. -/
theorem persist_shrink_before_install_conjoin_none_w :
    ∃ pre post,
      (Persist true (.ok (5, [1], 2))
          ⟨.ok 42, none, .ok 0, none, none, none, none, none⟩).2
        = pre ++ Ev.shrink :: Ev.renamed 5 :: post :=
  (persist_shrink_before_install_conjoin_none true (.ok (5, [1], 2))
      ⟨.ok 42, none, .ok 0, none, none, none, none, none⟩
      ⟨.ok ⟨0, [], 9⟩, .ok 1, none, .ok 0, none, none, none⟩ 5).1 (by decide)

/-- Copy-loop lemma: if every source before `s` copies fully and `s`'s
`io.CopyN` returns without error but with a byte count different from the
plan-declared `dataLen`, the loop stops with the short-copy error. -/
theorem copySources_append_short (pre : List SrcCopy) (s : SrcCopy) (rest : List SrcCopy)
    (hpre : copySources pre = none) (hr : s.readerErr = none) (n : Nat)
    (hcn : s.copyN = .ok n) (hne : n ≠ s.dataLen) :
    copySources (pre ++ s :: rest) = some shortCopyErr := by
  induction pre with
  | nil => simp [copySources, hr, hcn, hne]
  | cons a as ih =>
    rcases ha : a.readerErr with _ | e
    · rcases hacn : a.copyN with e | m
      · simp [copySources, ha, hacn] at hpre
      · by_cases hm : m = a.dataLen
        · simp [copySources, ha, hacn, hm] at hpre ⊢
          exact ih hpre
        · simp [copySources, ha, hacn, hm] at hpre
    · simp [copySources, ha] at hpre

/-- C5: if, while executing a conjoin plan, some source's copy step
transfers fewer (or more) bytes than its plan-declared data length — every
earlier source having copied fully — then `ConjoinAll` fails with the
short-copy error and no file is installed under the new table name. -/
theorem conjoin_short_copy_aborts (hc : Bool) (cenv : ConjoinEnv) (plan : ConjoinPlan)
    (pre rest : List SrcCopy) (s : SrcCopy) (t n : Nat)
    (hpl : cenv.planRes = .ok plan) (hcc : plan.chunkCount ≠ 0)
    (htf : cenv.tempFile = .ok t)
    (hsws : plan.sws = pre ++ s :: rest) (hpre : copySources pre = none)
    (hr : s.readerErr = none) (hcn : s.copyN = .ok n) (hne : n ≠ s.dataLen) :
    (ConjoinAll hc cenv).1 = .error shortCopyErr
    ∧ ∀ m, Ev.renamed m ∉ (ConjoinAll hc cenv).2 := by
  have hcs : copySources plan.sws = some shortCopyErr := by
    rw [hsws]
    exact copySources_append_short pre s rest hpre hr n hcn hne
  have hin : conjoinInner hc plan cenv = (.error shortCopyErr, [Ev.tempCreated t]) := by
    simp [conjoinInner, htf, hcs]
  simp [ConjoinAll, hpl, hcc, hin]

/-- C5 witness: a one-source plan declaring 10 bytes whose copy transfers
only 4. -/
theorem conjoin_short_copy_aborts_w :
    (ConjoinAll true
        ⟨.ok ⟨3, [⟨10, none, .ok 4⟩], 9⟩, .ok 42, none, .ok 0, none, none, none⟩).1
      = .error shortCopyErr
    ∧ ∀ m, Ev.renamed m ∉ (ConjoinAll true
        ⟨.ok ⟨3, [⟨10, none, .ok 4⟩], 9⟩, .ok 42, none, .ok 0, none, none, none⟩).2 :=
  conjoin_short_copy_aborts true
    ⟨.ok ⟨3, [⟨10, none, .ok 4⟩], 9⟩, .ok 42, none, .ok 0, none, none, none⟩
    ⟨3, [⟨10, none, .ok 4⟩], 9⟩ [] [] ⟨10, none, .ok 4⟩ 42 4
    rfl (by decide) rfl rfl rfl rfl rfl (by decide)

/-- C6: when the table-index parse fails during `Persist` (the data copy
having succeeded) or during `ConjoinAll` (the copies and the merged-index
write having succeeded), the parse error itself is returned to the caller —
the deferred close error cannot mask it and nothing retries the parse (the
trace holds exactly one parse call) — and no file is created under the
final table name. -/
theorem corrupt_index_error_propagates (hc : Bool) (name : Nat) (data : List Nat)
    (cc : Nat) (env : PersistEnv) (cenv : ConjoinEnv) (plan : ConjoinPlan)
    (t t2 e e2 : Nat) :
    (cc ≠ 0 → env.tempFile = .ok t → env.copyErr = none → env.parseRes = .error e →
      (Persist hc (.ok (name, data, cc)) env).1 = .error e
      ∧ (Persist hc (.ok (name, data, cc)) env).2.count Ev.parseCalled = 1
      ∧ ∀ m, Ev.renamed m ∉ (Persist hc (.ok (name, data, cc)) env).2)
    ∧ (cenv.planRes = .ok plan → plan.chunkCount ≠ 0 → cenv.tempFile = .ok t2 →
      copySources plan.sws = none → cenv.writeIdxErr = none →
      cenv.parseRes = .error e2 →
      (ConjoinAll hc cenv).1 = .error e2
      ∧ (ConjoinAll hc cenv).2.count Ev.parseCalled = 1
      ∧ ∀ m, Ev.renamed m ∉ (ConjoinAll hc cenv).2) := by
  constructor
  · intro hcc htf hce hpr
    have hin : persistTableInner hc name env
        = (.error e, [Ev.tempCreated t, Ev.parseCalled]) := by
      simp [persistTableInner, htf, hce, hpr]
    simp [Persist, persistTable, hcc, hin, List.count_cons]
  · intro hpl hcc htf hcs hwi hpr
    have hin : conjoinInner hc plan cenv
        = (.error e2, [Ev.tempCreated t2, Ev.parseCalled]) := by
      simp [conjoinInner, htf, hcs, hwi, hpr]
    simp [ConjoinAll, hpl, hcc, hin, List.count_cons]

/-- C6 witness: concrete runs of both operations in which only the index
parse fails, with error code 33. -/
theorem corrupt_index_error_propagates_w :
    ((Persist true (.ok (5, [1], 2)) ⟨.ok 42, none, .error 33, none, none, none, none, none⟩).1
        = .error 33
      ∧ (Persist true (.ok (5, [1], 2))
          ⟨.ok 42, none, .error 33, none, none, none, none, none⟩).2.count Ev.parseCalled = 1
      ∧ ∀ m, Ev.renamed m ∉ (Persist true (.ok (5, [1], 2))
          ⟨.ok 42, none, .error 33, none, none, none, none, none⟩).2)
    ∧ ((ConjoinAll true
          ⟨.ok ⟨3, [⟨10, none, .ok 10⟩], 9⟩, .ok 42, none, .error 33, none, none, none⟩).1
        = .error 33
      ∧ (ConjoinAll true
          ⟨.ok ⟨3, [⟨10, none, .ok 10⟩], 9⟩, .ok 42, none, .error 33, none, none, none⟩).2.count
            Ev.parseCalled = 1
      ∧ ∀ m, Ev.renamed m ∉ (ConjoinAll true
          ⟨.ok ⟨3, [⟨10, none, .ok 10⟩], 9⟩, .ok 42, none, .error 33, none, none, none⟩).2) := by
  have h := corrupt_index_error_propagates true 5 [1] 2
      ⟨.ok 42, none, .error 33, none, none, none, none, none⟩
      ⟨.ok ⟨3, [⟨10, none, .ok 10⟩], 9⟩, .ok 42, none, .error 33, none, none, none⟩
      ⟨3, [⟨10, none, .ok 10⟩], 9⟩ 42 42 33 33
  exact ⟨h.1 (by decide) rfl rfl rfl, h.2 rfl (by decide) rfl (by decide) rfl rfl⟩

/-- C7: for a modified difference whose old and new keyless cardinalities
are equal, the computed delta is zero and `convertDiff` returns the
delta-zero error instead of silently ignoring the change. -/
theorem convertDiff_zero_delta_error (df : Difference) (a b : Nat)
    (hmod : df.changeType = diffChangeModified)
    (ho : cardOf df.oldValue = .ok a) (hn : cardOf df.newValue = .ok b)
    (hab : a = b) :
    convertDiff df = (df, 0, some errDeltaZero) := by
  subst hab
  have hdz : wrapS64 0 = 0 := by
    norm_num [wrapS64]
  simp [convertDiff, ho, hn, hmod, diffChangeModified, diffChangeRemoved, diffChangeAdded,
    hdz]

/-- C7 witness: a modified row whose cardinality stays 5. -/
theorem convertDiff_zero_delta_error_w :
    convertDiff ⟨2, some (.ok 5), some (.ok 5), 3⟩
      = (⟨2, some (.ok 5), some (.ok 5), 3⟩, 0, some errDeltaZero) :=
  convertDiff_zero_delta_error ⟨2, some (.ok 5), some (.ok 5), 3⟩ 5 5 rfl (by decide)
    (by decide) rfl

/-- C9 evaluation at the failing input: a modified difference with old
cardinality 2 and new cardinality 1 makes `convertDiff` return a removed
change whose reported cardinality is `uint64(delta) = 2 ^ 64 - 1` — not the
absolute delta `2 - 1 = 1` that the function's documentation ("reports the
cardinality of a change") and its consumer (`copiesLeft`) require. -/
theorem convertDiff_removed_wrap_eval :
    convertDiff ⟨2, some (.ok 2), some (.ok 1), 0⟩
      = (⟨1, some (.ok 2), none, 0⟩, 18446744073709551615, none)
    ∧ (18446744073709551615 : Nat) ≠ 2 - 1 := by
  constructor
  · rfl
  · decide

/-- C8 (spec-modelled): `memTableWrite` is a function of the chunk set —
two chunk lists with the same set of chunks (any insertion order, any
duplication) produce the same content-derived name, the same serialized
bytes and the same chunk count. -/
theorem memTableWrite_deterministic (haver : Nat → Bool) (l1 l2 : List Nat)
    (h : l1.toFinset = l2.toFinset) :
    memTableWrite haver l1 = memTableWrite haver l2 := by
  have hk : chunkKeptSet haver l1 = chunkKeptSet haver l2 := by
    unfold chunkKeptSet
    rw [List.toFinset_filter, List.toFinset_filter, h]
  unfold memTableWrite
  rw [hk]

/-- C8 witness: the chunk lists `[5, 3]` and `[3, 5, 3]` hold the same
chunk set and serialize identically. -/
theorem memTableWrite_deterministic_w :
    memTableWrite (fun _ => false) [5, 3] = memTableWrite (fun _ => false) [3, 5, 3] :=
  memTableWrite_deterministic (fun _ => false) [5, 3] [3, 5, 3] (by decide)

/-- Loop invariant for `isInOrderLoop`: started with `count` pairs already
consumed and `prev` the last of them, the loop returns `(true, count + len)`
exactly on adjacent-ordered input, and on a violation it returns the number
of pairs consumed before the first out-of-order pair. -/
theorem isInOrderLoop_spec (less : α → α → Bool) :
    ∀ (m : List α) (prev : α) (count : Nat),
      (∀ k, isInOrderLoop less prev count m = (true, k) →
        k = count + m.length
          ∧ List.Chain' (fun a b => less b a = false) (prev :: m))
      ∧ (List.Chain' (fun a b => less b a = false) (prev :: m) →
        isInOrderLoop less prev count m = (true, count + m.length))
      ∧ (∀ k, isInOrderLoop less prev count m = (false, k) →
        ∃ j, k = count + j ∧ j < m.length
          ∧ List.Chain' (fun a b => less b a = false) (prev :: m.take j)
          ∧ ∃ a b tl, (prev :: m).drop j = a :: b :: tl ∧ less b a = true) := by
  intro m
  induction m with
  | nil =>
    intro prev count
    refine ⟨?_, ?_, ?_⟩
    · intro k hk
      simp [isInOrderLoop] at hk
      simp [hk]
    · intro _
      simp [isInOrderLoop]
    · intro k hk
      simp [isInOrderLoop] at hk
  | cons curr rest ih =>
    intro prev count
    by_cases hlt : less curr prev = true
    · refine ⟨?_, ?_, ?_⟩
      · intro k hk
        simp [isInOrderLoop, hlt] at hk
      · intro hch
        rw [List.chain'_cons] at hch
        rw [hch.1] at hlt
        cases hlt
      · intro k hk
        simp [isInOrderLoop, hlt] at hk
        refine ⟨0, by omega, by simp, by simp, prev, curr, rest, by simp, hlt⟩
    · have hlf : less curr prev = false := by
        cases hb : less curr prev
        · rfl
        · exact absurd hb hlt
      have hstep : isInOrderLoop less prev count (curr :: rest)
          = isInOrderLoop less curr (count + 1) rest := by
        simp [isInOrderLoop, hlf]
      obtain ⟨ih1, ih2, ih3⟩ := ih curr (count + 1)
      refine ⟨?_, ?_, ?_⟩
      · intro k hk
        rw [hstep] at hk
        obtain ⟨hk1, hk2⟩ := ih1 k hk
        refine ⟨by simp [List.length_cons]; omega, ?_⟩
        rw [List.chain'_cons]
        exact ⟨hlf, hk2⟩
      · intro hch
        rw [List.chain'_cons] at hch
        rw [hstep, ih2 hch.2]
        simp [List.length_cons]
        omega
      · intro k hk
        rw [hstep] at hk
        obtain ⟨j, hj1, hj2, hj3, a, b, tl, hd, hb⟩ := ih3 k hk
        refine ⟨j + 1, by omega, by simp [List.length_cons]; omega, ?_, a, b, tl, ?_, hb⟩
        · rw [List.take_succ_cons, List.chain'_cons]
          exact ⟨hlf, hj3⟩
        · rw [List.drop_succ_cons]
          exact hd

/-- C10: `IsInOrder` over the key list an iterator yields returns
`(true, n)` with `n` the total number of pairs exactly when no key is
strictly less than its immediate predecessor; on a violation it returns
`(false, k)` with `k ≥ 1` the number of pairs consumed before the first
out-of-order pair — the ordered proper prefix of length `k` is followed by a
key less than the key before it; the empty iterator gives `(true, 0)`. -/
theorem IsInOrder_spec (less : α → α → Bool) (l : List α) :
    (∀ k, IsInOrder less l = (true, k) →
      k = l.length ∧ List.Chain' (fun a b => less b a = false) l)
    ∧ (List.Chain' (fun a b => less b a = false) l →
      IsInOrder less l = (true, l.length))
    ∧ (∀ k, IsInOrder less l = (false, k) →
      1 ≤ k ∧ k < l.length
        ∧ List.Chain' (fun a b => less b a = false) (l.take k)
        ∧ ∃ a b tl, l.drop (k - 1) = a :: b :: tl ∧ less b a = true)
    ∧ IsInOrder less ([] : List α) = (true, 0) := by
  cases l with
  | nil =>
    refine ⟨?_, ?_, ?_, rfl⟩
    · intro k hk
      simp [IsInOrder] at hk
      simp [hk]
    · intro _
      rfl
    · intro k hk
      simp [IsInOrder] at hk
  | cons p rest =>
    obtain ⟨h1, h2, h3⟩ := isInOrderLoop_spec less rest p 1
    refine ⟨?_, ?_, ?_, rfl⟩
    · intro k hk
      obtain ⟨hk1, hk2⟩ := h1 k (by simpa [IsInOrder] using hk)
      exact ⟨by simp [List.length_cons]; omega, hk2⟩
    · intro hch
      have := h2 hch
      simp only [IsInOrder]
      rw [this]
      simp [List.length_cons]
      omega
    · intro k hk
      obtain ⟨j, hj1, hj2, hj3, a, b, tl, hd, hb⟩ := h3 k (by simpa [IsInOrder] using hk)
      refine ⟨by omega, by simp [List.length_cons]; omega, ?_, a, b, tl, ?_, hb⟩
      · rw [show k = j + 1 by omega, List.take_succ_cons]
        exact hj3
      · rw [show k - 1 = j by omega]
        exact hd

/-- C10 witness: the key stream 0, 2, 1 has its first out-of-order pair at
the third key, after two pairs were consumed. -/
theorem IsInOrder_spec_w :
    1 ≤ 2 ∧ 2 < ([0, 2, 1] : List Nat).length
      ∧ List.Chain' (fun a b => decide (b < a) = false) (([0, 2, 1] : List Nat).take 2)
      ∧ ∃ a b tl, ([0, 2, 1] : List Nat).drop 1 = a :: b :: tl ∧ decide (b < a) = true :=
  (IsInOrder_spec (fun a b => decide (a < b)) [0, 2, 1]).2.2.1 2 (by decide)
